import Mathlib

/-!
Verification of `floatpy/parallel/transpose_wrapper.py` (class `TransposeWrapper`).

The wrapper orchestrates a parallel transpose between a "natural" 3-D/2-D block
decomposition and a 1-D "pencil" decomposition.  The grid-partition object
(`t3d`) and the `DataReshaper` are external collaborators; the `t3d` transpose
primitives are modelled as abstract functions on flat (Fortran-ordered) data,
and the reshaper is modelled from the spec (its source is not part of the
verified tree).

Arrays are modelled as a logical shape together with the flat list of elements
in Fortran (column-major) order, so reshapes that preserve the element order
leave the flat list unchanged.  Elements are exact values with an explicit
imaginary part, so the `numpy.isreal` element-wise check is expressible.
-/

/-- An exact numeric value as stored in a numpy array: a real part and an
imaginary part.  A value is "real" when its imaginary part is zero. -/
structure PyVal where
  re : Int
  im : Int
deriving DecidableEq, Repr

/-- A length-3 vector, as returned by the `t3d` size/bound queries
(`numpy` arrays of 3 int32 values in the source). -/
structure V3 (α : Type) where
  x : α
  y : α
  z : α
deriving DecidableEq, Repr

def V3.toList {α : Type} (v : V3 α) : List α := [v.x, v.y, v.z]

/-- Component-wise subtraction of 1, as in `self._3d_lo = self._3d_lo - 1`. -/
def V3.sub1 (v : V3 Int) : V3 Int := ⟨v.x - 1, v.y - 1, v.z - 1⟩

/-- The grid-partition collaborator (`t3dmod.t3d`): per-process block geometry
queries (sizes as non-negative extents, 1-based inclusive start/end bounds) and
the six directional transpose primitives.  The primitives are abstract
functions on the flat Fortran-ordered data of the 3-D working array. -/
structure T3D where
  sz3d : V3 Nat
  st3d : V3 Int
  en3d : V3 Int
  szx : V3 Nat
  stx : V3 Int
  enx : V3 Int
  szy : V3 Nat
  sty : V3 Int
  eny : V3 Int
  szz : V3 Nat
  stz : V3 Int
  enz : V3 Int
  transpose_3d_to_x : List PyVal → List PyVal
  transpose_3d_to_y : List PyVal → List PyVal
  transpose_3d_to_z : List PyVal → List PyVal
  transpose_x_to_3d : List PyVal → List PyVal
  transpose_y_to_3d : List PyVal → List PyVal
  transpose_z_to_3d : List PyVal → List PyVal

/-- A numpy array: logical shape plus the elements flattened in Fortran
(column-major) order. -/
structure NArray where
  shape : List Nat
  data : List PyVal
deriving DecidableEq, Repr

/-- `numpy.all(numpy.isreal(data))`: every element has zero imaginary part. -/
def isrealAll (l : List PyVal) : Bool := l.all (fun v => v.im = 0)

/-- Pad a logical shape on the right with unit axes up to length 3
(the `numpy.append(shape_3d, 1)` step for 2-D data). -/
def pad3 (s : List Nat) : List Nat := s ++ List.replicate (3 - s.length) 1

/-- Modelled from the spec: `DataReshaper.reshapeTo3d` (the Array Reshaper
collaborator, source not in the verified tree).  It extracts the 3-D
(2-D padded to 3-D) working view of one component of the array in its native
Fortran element order, with no change of element values; component `ic` of a
Fortran-ordered array with trailing component axis is the contiguous flat
slice of length `prod(shape[0:dim])` starting at `ic` times that length. -/
def reshapeTo3d (dim : Nat) (a : NArray) (component_idx : Option Nat) : NArray :=
  let shape3 := pad3 (a.shape.take dim)
  let n := shape3.prod
  match component_idx with
  | none => ⟨shape3, a.data.take n⟩
  | some ic => ⟨shape3, (a.data.drop (ic * n)).take n⟩

/-- Modelled from the spec: `DataReshaper.reshapeFrom3d`.  It collapses the
3-D/4-D working array back to the logical `dim`-dimensional shape (re-attaching
the trailing component axis when present), leaving the Fortran-ordered flat
data unchanged. -/
def reshapeFrom3d (dim : Nat) (a : NArray) : NArray :=
  ⟨a.shape.take dim ++ a.shape.drop 3, a.data⟩

/-- The state of a constructed `TransposeWrapper`: the grid partition, the
configured dimensionality and pencil direction, and the cached (0-based)
natural-block and pencil-block descriptors. -/
structure TransposeWrapper where
  grid_partition : T3D
  dim : Nat
  direction : Nat
  size3d : V3 Nat
  lo3d : V3 Int
  hi3d : V3 Int
  pencil_size : V3 Nat
  pencil_lo : V3 Int
  pencil_hi : V3 Int

/-- `TransposeWrapper.__init__`.  The `isinstance` check is enforced by the
type of `grid_partition`; the remaining argument validation and the cached
block geometry follow the source line by line.  `direction` and `dimension`
are Python integers, hence `Int`. -/
def mkTransposeWrapper (grid_partition : T3D) (direction : Int) (dimension : Int) :
    Except String TransposeWrapper :=
  if direction < 0 ∨ direction > 2 then
    .error "Direction < 0 or > 2 is invalid!"
  else if dimension < 2 ∨ dimension > 3 then
    .error "Only data with dimension of 2 or 3 can be transposed!"
  else if dimension ≤ direction then
    .error "Direction to transpose is not allowed with the dimensinality of data!"
  else
    .ok { grid_partition := grid_partition
          dim := dimension.toNat
          direction := direction.toNat
          size3d := grid_partition.sz3d
          lo3d := grid_partition.st3d.sub1
          hi3d := grid_partition.en3d.sub1
          pencil_size :=
            if direction = 0 then grid_partition.szx
            else if direction = 1 then grid_partition.szy
            else grid_partition.szz
          pencil_lo :=
            (if direction = 0 then grid_partition.stx
             else if direction = 1 then grid_partition.sty
             else grid_partition.stz).sub1
          pencil_hi :=
            (if direction = 0 then grid_partition.enx
             else if direction = 1 then grid_partition.eny
             else grid_partition.enz).sub1 }

/-- Property `full_pencil`: the cached pencil bounds, truncated to `dim`
components. -/
def TransposeWrapper.full_pencil (w : TransposeWrapper) : List Int × List Int :=
  ((w.pencil_lo.toList).take w.dim, (w.pencil_hi.toList).take w.dim)

/-- Property `full_pencil_size`: the cached pencil size, truncated to `dim`
components. -/
def TransposeWrapper.full_pencil_size (w : TransposeWrapper) : List Nat :=
  (w.pencil_size.toList).take w.dim

/-- The directional transpose primitive selected by `self._direction` in
`transposeToPencil` (`transpose_3d_to_x` / `_y` / `_z`). -/
def TransposeWrapper.toPencilOp (w : TransposeWrapper) : List PyVal → List PyVal :=
  if w.direction = 0 then w.grid_partition.transpose_3d_to_x
  else if w.direction = 1 then w.grid_partition.transpose_3d_to_y
  else w.grid_partition.transpose_3d_to_z

/-- The inverse directional transpose primitive selected by `self._direction`
in `transposeFromPencil` (`transpose_x_to_3d` / `_y` / `_z`). -/
def TransposeWrapper.fromPencilOp (w : TransposeWrapper) : List PyVal → List PyVal :=
  if w.direction = 0 then w.grid_partition.transpose_x_to_3d
  else if w.direction = 1 then w.grid_partition.transpose_y_to_3d
  else w.grid_partition.transpose_z_to_3d

/-- `num_components`: read from the trailing axis exactly when the input has
`dim + 1` axes, else 1. -/
def numComponentsOf (dim : Nat) (a : NArray) : Nat :=
  if a.shape.length = dim + 1 then a.shape.getD dim 1 else 1

/-- `TransposeWrapper.transposeToPencil`.  Realness check, component count,
then either the single-component path (reshape whole array, one primitive
call into a pencil-sized buffer) or the per-component loop in ascending
component order, each call writing the component's contiguous Fortran slab of
the 4-D buffer. -/
def TransposeWrapper.transposeToPencil (w : TransposeWrapper) (data : NArray) :
    Except String NArray :=
  if ¬ isrealAll data.data then
    .error "The given data is complex! Only real data can be transposed."
  else
    let num_components := numComponentsOf w.dim data
    if num_components = 1 then
      let data_3d := reshapeTo3d w.dim data none
      let buf := w.toPencilOp data_3d.data
      .ok (reshapeFrom3d w.dim ⟨w.pencil_size.toList, buf⟩)
    else
      let buf := (List.range num_components).flatMap (fun ic =>
        let data_3d := reshapeTo3d w.dim data (some ic)
        w.toPencilOp data_3d.data)
      .ok (reshapeFrom3d w.dim ⟨w.pencil_size.toList ++ [num_components], buf⟩)

/-- `TransposeWrapper.transposeFromPencil`.  Symmetric to `transposeToPencil`
with the working buffer shaped to the natural block (`self._3d_size`) and the
inverse directional primitive. -/
def TransposeWrapper.transposeFromPencil (w : TransposeWrapper) (data : NArray) :
    Except String NArray :=
  if ¬ isrealAll data.data then
    .error "The given data is complex! Only real data can be transposed."
  else
    let num_components := numComponentsOf w.dim data
    if num_components = 1 then
      let data_pencil := reshapeTo3d w.dim data none
      let buf := w.fromPencilOp data_pencil.data
      .ok (reshapeFrom3d w.dim ⟨w.size3d.toList, buf⟩)
    else
      let buf := (List.range num_components).flatMap (fun ic =>
        let data_pencil := reshapeTo3d w.dim data (some ic)
        w.fromPencilOp data_pencil.data)
      .ok (reshapeFrom3d w.dim ⟨w.size3d.toList ++ [num_components], buf⟩)

/-! ### Concrete fixtures

A trivial single-process partition: natural block 2x2x2, every pencil block
2x2x2, all transpose primitives the identity redistribution. -/

/-- A concrete grid partition for concrete evaluations. -/
def exGP : T3D where
  sz3d := ⟨2, 2, 2⟩
  st3d := ⟨1, 1, 1⟩
  en3d := ⟨2, 2, 2⟩
  szx := ⟨2, 2, 2⟩
  stx := ⟨1, 1, 1⟩
  enx := ⟨2, 2, 2⟩
  szy := ⟨2, 2, 2⟩
  sty := ⟨1, 1, 1⟩
  eny := ⟨2, 2, 2⟩
  szz := ⟨2, 2, 2⟩
  stz := ⟨1, 1, 1⟩
  enz := ⟨2, 2, 2⟩
  transpose_3d_to_x := id
  transpose_3d_to_y := id
  transpose_3d_to_z := id
  transpose_x_to_3d := id
  transpose_y_to_3d := id
  transpose_z_to_3d := id

/-- The wrapper built from `exGP` with direction 0 and dimension 3:
the result of `mkTransposeWrapper exGP 0 3`. -/
def exW : TransposeWrapper where
  grid_partition := exGP
  dim := 3
  direction := 0
  size3d := ⟨2, 2, 2⟩
  lo3d := ⟨0, 0, 0⟩
  hi3d := ⟨1, 1, 1⟩
  pencil_size := ⟨2, 2, 2⟩
  pencil_lo := ⟨0, 0, 0⟩
  pencil_hi := ⟨1, 1, 1⟩

theorem mk_exW : mkTransposeWrapper exGP 0 3 = .ok exW := rfl

/-- A real-valued 2x2x2 array with distinct entries. -/
def exA : NArray := ⟨[2, 2, 2], (List.range 8).map (fun i => ⟨(i : Int), 0⟩)⟩

/-- A real-valued array whose leading axes (3,3,3) match neither the natural
nor the pencil block of `exW`. -/
def exBadA : NArray := ⟨[3, 3, 3], (List.range 27).map (fun i => ⟨(i : Int), 0⟩)⟩

/-! ### Claims -/

/-- C4: constructing with `direction` outside `[0, rank)` or `rank` outside
`{2, 3}` fails with an error, no adapter instance is produced, and — since the
grid partition `gp` is arbitrary, in particular its transpose operations — no
directional transpose operation is consulted. -/
theorem C4_invalid_configuration (gp : T3D) (direction dimension : Int)
    (h : direction < 0 ∨ dimension ≤ direction ∨ dimension < 2 ∨ 3 < dimension) :
    ∃ msg, mkTransposeWrapper gp direction dimension = .error msg := by
  unfold mkTransposeWrapper
  split
  · exact ⟨_, rfl⟩
  · split
    · exact ⟨_, rfl⟩
    · split
      · exact ⟨_, rfl⟩
      · rename_i h1 h2 h3
        push_neg at h1 h2 h3
        omega

theorem C4_invalid_configuration_witness :
    ∃ msg, mkTransposeWrapper exGP 5 3 = .error msg :=
  C4_invalid_configuration exGP 5 3 (by norm_num)

/-- C3: an input containing an element with non-zero imaginary part makes both
`transposeToPencil` and `transposeFromPencil` fail with the complex-data error;
the wrapper `w` (hence its transpose primitives and block sizes) is arbitrary,
so no transpose primitive is invoked and no buffer content matters: no output
is produced. -/
theorem C3_reject_complex (w : TransposeWrapper) (data : NArray)
    (h : ¬ isrealAll data.data = true) :
    w.transposeToPencil data
        = .error "The given data is complex! Only real data can be transposed." ∧
      w.transposeFromPencil data
        = .error "The given data is complex! Only real data can be transposed." := by
  constructor
  · unfold TransposeWrapper.transposeToPencil
    simp [h]
  · unfold TransposeWrapper.transposeFromPencil
    simp [h]

theorem C3_reject_complex_witness :
    ¬ isrealAll (NArray.mk [1] [⟨0, 1⟩]).data = true ∧
      exW.transposeToPencil ⟨[1], [⟨0, 1⟩]⟩
        = .error "The given data is complex! Only real data can be transposed." ∧
      exW.transposeFromPencil ⟨[1], [⟨0, 1⟩]⟩
        = .error "The given data is complex! Only real data can be transposed." :=
  ⟨by decide, C3_reject_complex exW ⟨[1], [⟨0, 1⟩]⟩ (by decide)⟩

/-- C9: an input of complex element type whose imaginary parts are all zero is
accepted by both operations: the realness check is element-wise (every element
carries an imaginary slot here, and only its value is inspected), so the call
proceeds to a successful result rather than being rejected for its dtype. -/
theorem C9_all_real_accepted (w : TransposeWrapper) (data : NArray)
    (h : isrealAll data.data = true) :
    (∃ out, w.transposeToPencil data = .ok out) ∧
      ∃ res, w.transposeFromPencil data = .ok res := by
  constructor
  · unfold TransposeWrapper.transposeToPencil
    simp only [h, not_true_eq_false, if_false]
    split
    · exact ⟨_, rfl⟩
    · exact ⟨_, rfl⟩
  · unfold TransposeWrapper.transposeFromPencil
    simp only [h, not_true_eq_false, if_false]
    split
    · exact ⟨_, rfl⟩
    · exact ⟨_, rfl⟩

theorem C9_all_real_accepted_witness :
    (∃ out, exW.transposeToPencil exA = .ok out) ∧
      ∃ res, exW.transposeFromPencil exA = .ok res :=
  C9_all_real_accepted exW exA (by decide)

/-- C10: the component count is read from the trailing axis exactly when the
input has `dim + 1` axes; whenever the number of axes differs from `dim + 1`
(including `dim + 2` or fewer than `dim`), or the trailing axis has size 1,
the component count is 1 and both operations take the single-component path —
the reshaper is called once with no component index, no per-component loop
runs, and no dimensionality error is raised. -/
theorem C10_component_count (w : TransposeWrapper) (data : NArray)
    (hreal : isrealAll data.data = true)
    (h : data.shape.length ≠ w.dim + 1 ∨ data.shape.getD w.dim 1 = 1) :
    numComponentsOf w.dim data = 1 ∧
      w.transposeToPencil data
        = .ok (reshapeFrom3d w.dim
            ⟨w.pencil_size.toList, w.toPencilOp (reshapeTo3d w.dim data none).data⟩) ∧
      w.transposeFromPencil data
        = .ok (reshapeFrom3d w.dim
            ⟨w.size3d.toList, w.fromPencilOp (reshapeTo3d w.dim data none).data⟩) := by
  have hc : numComponentsOf w.dim data = 1 := by
    unfold numComponentsOf
    rcases h with h | h
    · simp [h]
    · split
      · exact h
      · rfl
  refine ⟨hc, ?_, ?_⟩
  · unfold TransposeWrapper.transposeToPencil
    simp only [hreal, not_true_eq_false, if_false, hc, if_true]
  · unfold TransposeWrapper.transposeFromPencil
    simp only [hreal, not_true_eq_false, if_false, hc, if_true]

theorem C10_component_count_witness :
    numComponentsOf exW.dim ⟨[2, 2, 2, 1], exA.data⟩ = 1 ∧
      exW.transposeToPencil ⟨[2, 2, 2, 1], exA.data⟩
        = .ok (reshapeFrom3d exW.dim
            ⟨exW.pencil_size.toList,
             exW.toPencilOp (reshapeTo3d exW.dim ⟨[2, 2, 2, 1], exA.data⟩ none).data⟩) ∧
      exW.transposeFromPencil ⟨[2, 2, 2, 1], exA.data⟩
        = .ok (reshapeFrom3d exW.dim
            ⟨exW.size3d.toList,
             exW.fromPencilOp (reshapeTo3d exW.dim ⟨[2, 2, 2, 1], exA.data⟩ none).data⟩) :=
  C10_component_count exW ⟨[2, 2, 2, 1], exA.data⟩ (by decide) (by decide)

/-- C2: for every real input, the leading `dim` axes of the result of
`transposeToPencil` equal `full_pencil_size`, and the leading `dim` axes of
the result of `transposeFromPencil` equal the cached natural block size
truncated to `dim` axes. -/
theorem C2_shape_contract (w : TransposeWrapper) (data : NArray) (B : NArray)
    (hdim : w.dim ≤ 3) (hreal : isrealAll data.data = true) :
    (w.transposeToPencil data = .ok B →
        B.shape.take w.dim = w.full_pencil_size) ∧
      (w.transposeFromPencil data = .ok B →
        B.shape.take w.dim = (w.size3d.toList).take w.dim) := by
  constructor
  · intro hB
    unfold TransposeWrapper.transposeToPencil at hB
    simp only [hreal, not_true_eq_false, if_false] at hB
    rw [TransposeWrapper.full_pencil_size]
    split at hB <;>
    · simp only [Except.ok.injEq] at hB
      subst hB
      rw [reshapeFrom3d]
      obtain ⟨px, py, pz⟩ := w.pencil_size
      interval_cases h : w.dim <;> simp [V3.toList]
  · intro hB
    unfold TransposeWrapper.transposeFromPencil at hB
    simp only [hreal, not_true_eq_false, if_false] at hB
    split at hB <;>
    · simp only [Except.ok.injEq] at hB
      subst hB
      rw [reshapeFrom3d]
      obtain ⟨sx, sy, sz⟩ := w.size3d
      interval_cases h : w.dim <;> simp [V3.toList]

theorem C2_shape_contract_witness :
    exW.transposeToPencil exA
        = .ok ⟨[2, 2, 2], exA.data⟩ ∧
      (exW.transposeToPencil exA = .ok ⟨[2, 2, 2], exA.data⟩ →
        (NArray.mk [2, 2, 2] exA.data).shape.take exW.dim = exW.full_pencil_size) :=
  ⟨by rfl,
   fun h => (C2_shape_contract exW exA ⟨[2, 2, 2], exA.data⟩ (by decide) (by decide)).1 h⟩

/-- C5 counterexample: a real-valued input whose leading `dim` axes (3,3,3)
match neither the natural block (2,2,2) nor the pencil block (2,2,2) of `exW`
is nevertheless accepted by both `transposeToPencil` and
`transposeFromPencil`: no shape validation is performed and no error is
raised. -/
theorem C5_counterexample :
    exBadA.shape.take exW.dim ≠ (exW.size3d.toList).take exW.dim ∧
      exBadA.shape.take exW.dim ≠ (exW.pencil_size.toList).take exW.dim ∧
      isrealAll exBadA.data = true ∧
      exW.transposeToPencil exBadA = .ok ⟨[2, 2, 2], exBadA.data⟩ ∧
      exW.transposeFromPencil exBadA = .ok ⟨[2, 2, 2], exBadA.data⟩ :=
  ⟨by decide, by decide, by decide, by rfl, by rfl⟩

/-- C5 amended: a real-valued input whose leading `dim` axes mismatch the
expected block is not rejected — the adapter performs no shape validation, so
the call succeeds (the data is handed to the reshaper and the transpose
primitive as-is); only complex-valued data is rejected at call time.  Both
methods are pure with respect to the adapter state, so the adapter remains
usable for subsequent calls. -/
theorem C5_amended_no_shape_validation (w : TransposeWrapper) (data : NArray)
    (hreal : isrealAll data.data = true)
    (hm1 : data.shape.take w.dim ≠ (w.size3d.toList).take w.dim)
    (hm2 : data.shape.take w.dim ≠ (w.pencil_size.toList).take w.dim) :
    (∃ out, w.transposeToPencil data = .ok out) ∧
      ∃ res, w.transposeFromPencil data = .ok res := by
  constructor
  · unfold TransposeWrapper.transposeToPencil
    simp only [hreal, not_true_eq_false, if_false]
    split
    · exact ⟨_, rfl⟩
    · exact ⟨_, rfl⟩
  · unfold TransposeWrapper.transposeFromPencil
    simp only [hreal, not_true_eq_false, if_false]
    split
    · exact ⟨_, rfl⟩
    · exact ⟨_, rfl⟩

theorem C5_amended_no_shape_validation_witness :
    (∃ out, exW.transposeToPencil exBadA = .ok out) ∧
      ∃ res, exW.transposeFromPencil exBadA = .ok res :=
  C5_amended_no_shape_validation exW exBadA (by decide) (by decide) (by decide)

/-- C8: in `transposeFromPencil`, the working buffer is shaped to the natural
block size `size3d` (with a trailing component axis of size `C` when the
component count is not 1), and the primitive invoked (once per component) is
the grid partition's inverse directional operation matching the configured
direction: `transpose_x_to_3d` for direction 0, `transpose_y_to_3d` for
direction 1, `transpose_z_to_3d` for direction 2. -/
theorem C8_from_pencil_buffer_and_inverse_op (w : TransposeWrapper) (data : NArray)
    (hreal : isrealAll data.data = true) :
    (numComponentsOf w.dim data = 1 →
      w.transposeFromPencil data
        = .ok (reshapeFrom3d w.dim
            ⟨w.size3d.toList,
             (if w.direction = 0 then w.grid_partition.transpose_x_to_3d
              else if w.direction = 1 then w.grid_partition.transpose_y_to_3d
              else w.grid_partition.transpose_z_to_3d)
               (reshapeTo3d w.dim data none).data⟩)) ∧
      (numComponentsOf w.dim data ≠ 1 →
        w.transposeFromPencil data
          = .ok (reshapeFrom3d w.dim
              ⟨w.size3d.toList ++ [numComponentsOf w.dim data],
               (List.range (numComponentsOf w.dim data)).flatMap (fun ic =>
                 (if w.direction = 0 then w.grid_partition.transpose_x_to_3d
                  else if w.direction = 1 then w.grid_partition.transpose_y_to_3d
                  else w.grid_partition.transpose_z_to_3d)
                   (reshapeTo3d w.dim data (some ic)).data)⟩)) := by
  constructor
  · intro h1
    unfold TransposeWrapper.transposeFromPencil
    simp only [hreal, not_true_eq_false, if_false, h1, if_true]
    rfl
  · intro h1
    unfold TransposeWrapper.transposeFromPencil
    simp only [hreal, not_true_eq_false, if_false, h1, if_false]
    rfl

theorem C8_from_pencil_buffer_and_inverse_op_witness :
    (numComponentsOf exW.dim exA = 1 →
      exW.transposeFromPencil exA
        = .ok (reshapeFrom3d exW.dim
            ⟨exW.size3d.toList,
             (if exW.direction = 0 then exW.grid_partition.transpose_x_to_3d
              else if exW.direction = 1 then exW.grid_partition.transpose_y_to_3d
              else exW.grid_partition.transpose_z_to_3d)
               (reshapeTo3d exW.dim exA none).data⟩)) ∧
      (numComponentsOf exW.dim exA ≠ 1 →
        exW.transposeFromPencil exA
          = .ok (reshapeFrom3d exW.dim
              ⟨exW.size3d.toList ++ [numComponentsOf exW.dim exA],
               (List.range (numComponentsOf exW.dim exA)).flatMap (fun ic =>
                 (if exW.direction = 0 then exW.grid_partition.transpose_x_to_3d
                  else if exW.direction = 1 then exW.grid_partition.transpose_y_to_3d
                  else exW.grid_partition.transpose_z_to_3d)
                   (reshapeTo3d exW.dim exA (some ic)).data)⟩)) :=
  C8_from_pencil_buffer_and_inverse_op exW exA (by decide)

/-- C6: for an adapter successfully constructed from a grid partition whose
pencil bound queries are self-consistent in 1-based indexing
(`en = st + sz - 1` component-wise), the accessors satisfy
`full_pencil` hi − lo + 1 = `full_pencil_size` component-wise: both bounds
were converted to 0-based indexing by subtracting 1 exactly once at
construction and cached. -/
theorem C6_bounds_consistency (gp : T3D) (direction dimension : Int)
    (w : TransposeWrapper)
    (hmk : mkTransposeWrapper gp direction dimension = .ok w)
    (hx : gp.enx.x = gp.stx.x + (gp.szx.x : Int) - 1 ∧
          gp.enx.y = gp.stx.y + (gp.szx.y : Int) - 1 ∧
          gp.enx.z = gp.stx.z + (gp.szx.z : Int) - 1)
    (hy : gp.eny.x = gp.sty.x + (gp.szy.x : Int) - 1 ∧
          gp.eny.y = gp.sty.y + (gp.szy.y : Int) - 1 ∧
          gp.eny.z = gp.sty.z + (gp.szy.z : Int) - 1)
    (hz : gp.enz.x = gp.stz.x + (gp.szz.x : Int) - 1 ∧
          gp.enz.y = gp.stz.y + (gp.szz.y : Int) - 1 ∧
          gp.enz.z = gp.stz.z + (gp.szz.z : Int) - 1) :
    List.zipWith (fun a b => a - b + 1) (w.full_pencil).2 (w.full_pencil).1
      = (w.full_pencil_size).map (fun n => (n : Int)) := by
  unfold mkTransposeWrapper at hmk
  split at hmk
  · simp at hmk
  · split at hmk
    · simp at hmk
    · split at hmk
      · simp at hmk
      · rename_i h1 h2 h3
        push_neg at h1 h2 h3
        simp only [Except.ok.injEq] at hmk
        subst hmk
        obtain ⟨hx1, hx2, hx3⟩ := hx
        obtain ⟨hy1, hy2, hy3⟩ := hy
        obtain ⟨hz1, hz2, hz3⟩ := hz
        have hdir : direction = 0 ∨ direction = 1 ∨ direction = 2 := by omega
        have hdim : dimension = 2 ∨ dimension = 3 := by omega
        rcases hdir with h | h | h <;> subst h <;>
          rcases hdim with h | h <;> subst h <;>
            simp [TransposeWrapper.full_pencil, TransposeWrapper.full_pencil_size,
                  V3.toList, V3.sub1, hx1, hx2, hx3, hy1, hy2, hy3, hz1, hz2, hz3] <;>
            omega

theorem C6_bounds_consistency_witness :
    List.zipWith (fun a b => a - b + 1) (exW.full_pencil).2 (exW.full_pencil).1
      = (exW.full_pencil_size).map (fun n => (n : Int)) :=
  C6_bounds_consistency exGP 0 3 exW (by rfl)
    ⟨by decide, by decide, by decide⟩ ⟨by decide, by decide, by decide⟩
    ⟨by decide, by decide, by decide⟩

/-! ### List helpers for the per-component slab structure of the 4-D buffer -/

lemma pad3_prod (s : List Nat) : (pad3 s).prod = s.prod := by
  unfold pad3
  rw [List.prod_append, List.prod_replicate, one_pow, mul_one]

lemma length_flatMap_const (f : Nat → List PyVal) (n : Nat) :
    ∀ C : Nat, (∀ i, i < C → (f i).length = n) →
      ((List.range C).flatMap f).length = C * n := by
  intro C
  induction C with
  | zero => intro _; simp
  | succ C ih =>
    intro hf
    rw [List.range_succ, List.flatMap_append, List.length_append,
        ih (fun i hi => hf i (Nat.lt_succ_of_lt hi))]
    have h1 : ([C].flatMap f).length = n := by
      simp [hf C (Nat.lt_succ_self C)]
    rw [h1, Nat.succ_mul]

lemma flatMap_range_extract (f : Nat → List PyVal) (n : Nat) :
    ∀ C c : Nat, c < C → (∀ i, i < C → (f i).length = n) →
      (((List.range C).flatMap f).drop (c * n)).take n = f c := by
  intro C
  induction C with
  | zero => intro c hc _; omega
  | succ C ih =>
    intro c hc hf
    have hf' : ∀ i, i < C → (f i).length = n := fun i hi => hf i (Nat.lt_succ_of_lt hi)
    have hlen : ((List.range C).flatMap f).length = C * n := length_flatMap_const f n C hf'
    rw [List.range_succ, List.flatMap_append]
    rcases Nat.lt_or_ge c C with h | h
    · have hle : c * n + n ≤ C * n := by
        have := Nat.mul_le_mul_right n h
        rw [Nat.succ_mul] at this
        exact this
      rw [List.drop_append_of_le_length (by omega),
          List.take_append_of_le_length (by rw [List.length_drop, hlen]; omega)]
      exact ih c h hf'
    · have hc' : c = C := by omega
      subst hc'
      rw [← hlen, List.drop_left]
      have h2 : ([c].flatMap f) = f c := by simp
      rw [h2, List.take_of_length_le (by rw [hf c (Nat.lt_succ_self c)])]

lemma flatMap_range_chunks :
    ∀ (C : Nat) (l : List PyVal) (n : Nat), l.length = C * n →
      (List.range C).flatMap (fun c => (l.drop (c * n)).take n) = l := by
  intro C
  induction C with
  | zero =>
    intro l n h
    simp only [List.range_zero, List.flatMap_nil]
    symm
    exact List.eq_nil_of_length_eq_zero (by omega)
  | succ C ih =>
    intro l n h
    rw [List.range_succ_eq_map, List.flatMap_cons, List.flatMap_map]
    have hrw : ∀ c : Nat, (l.drop (Nat.succ c * n)).take n
        = ((l.drop n).drop (c * n)).take n := by
      intro c
      rw [List.drop_drop]
      have hmul : c.succ * n = n + c * n := by
        rw [Nat.succ_mul]
        omega
      rw [hmul]
    simp only [hrw]
    rw [ih (l.drop n) n
          (by rw [List.length_drop, h, Nat.add_mul, one_mul, Nat.add_sub_cancel]),
        Nat.zero_mul, List.drop_zero, List.take_append_drop]

lemma flatMap_range_congr (f g : Nat → List PyVal) :
    ∀ C : Nat, (∀ i, i < C → f i = g i) →
      (List.range C).flatMap f = (List.range C).flatMap g := by
  intro C
  induction C with
  | zero => intro _; simp
  | succ C ih =>
    intro h
    rw [List.range_succ, List.flatMap_append, List.flatMap_append,
        ih (fun i hi => h i (Nat.lt_succ_of_lt hi))]
    simp [h C (Nat.lt_succ_self C)]

lemma chunk_length (l : List PyVal) (n C c : Nat) (h : l.length = C * n) (hc : c < C) :
    ((l.drop (c * n)).take n).length = n := by
  have hle : c * n + n ≤ C * n := by
    have := Nat.mul_le_mul_right n hc
    rw [Nat.succ_mul] at this
    exact this
  rw [List.length_take, List.length_drop, h]
  generalize c * n = a at hle ⊢
  generalize C * n = b at hle ⊢
  omega

lemma isrealAll_infix (l : List PyVal) (m n : Nat) (h : isrealAll l = true) :
    isrealAll ((l.drop m).take n) = true := by
  unfold isrealAll at h ⊢
  rw [List.all_eq_true] at h ⊢
  intro v hv
  exact h v (List.mem_of_mem_drop (List.mem_of_mem_take hv))

lemma isrealAll_flatMap (f : Nat → List PyVal) (C : Nat)
    (h : ∀ i, i < C → isrealAll (f i) = true) :
    isrealAll ((List.range C).flatMap f) = true := by
  unfold isrealAll at h ⊢
  rw [List.all_eq_true]
  intro v hv
  rw [List.mem_flatMap] at hv
  obtain ⟨a, ha, hv⟩ := hv
  have ha' : a < C := List.mem_range.mp ha
  have h2 := h a ha'
  rw [List.all_eq_true] at h2
  exact h2 v hv

/-! ### A partition whose transpose primitives have the block-sized output
expected of a real redistribution of a 2x2x2 block (always 8 values). -/

/-- A transpose primitive for the 2x2x2 fixtures: the identity redistribution
on block-sized (length-8) data, with a total definition on other lengths. -/
def pad8 (l : List PyVal) : List PyVal := (l ++ List.replicate 8 (PyVal.mk 0 0)).take 8

lemma pad8_length (l : List PyVal) : (pad8 l).length = 8 := by
  unfold pad8
  rw [List.length_take, List.length_append, List.length_replicate]
  omega

lemma pad8_eq (l : List PyVal) (h : l.length = 8) : pad8 l = l := by
  unfold pad8
  rw [List.take_append_of_le_length (by omega), ← h, List.take_length]

lemma pad8_real (l : List PyVal) (h : isrealAll l = true) :
    isrealAll (pad8 l) = true := by
  unfold isrealAll at h ⊢
  unfold pad8
  rw [List.all_eq_true] at h ⊢
  intro v hv
  rcases List.mem_append.mp (List.mem_of_mem_take hv) with hm | hm
  · exact h v hm
  · simp [List.eq_of_mem_replicate hm]

/-- `exGP` with every transpose primitive replaced by `pad8`. -/
def exGP2 : T3D :=
  { exGP with
    transpose_3d_to_x := pad8
    transpose_3d_to_y := pad8
    transpose_3d_to_z := pad8
    transpose_x_to_3d := pad8
    transpose_y_to_3d := pad8
    transpose_z_to_3d := pad8 }

/-- The wrapper built from `exGP2` with direction 0 and dimension 3:
the result of `mkTransposeWrapper exGP2 0 3`. -/
def exW2 : TransposeWrapper :=
  { exW with grid_partition := exGP2 }

theorem mk_exW2 : mkTransposeWrapper exGP2 0 3 = .ok exW2 := rfl

/-- A real-valued 2x2x2x2 array: two components of 8 values each. -/
def exA2 : NArray := ⟨[2, 2, 2, 2], (List.range 16).map (fun i => ⟨(i : Int), 0⟩)⟩

/-- C7: on a multi-component input with `C` components (trailing-axis count,
`C ≠ 1`), each of `transposeToPencil` and `transposeFromPencil` issues exactly
one directional transpose call per component — the calls are the terms of the
fold over `List.range C`, hence in strictly ascending component order 0, 1,
…, C−1, all through the single direction-selected primitive — and, when the
primitive returns block-sized output, component slab `c` of the output buffer
is exactly the primitive applied to component `c` of the input. -/
theorem C7_component_loop_order (w : TransposeWrapper) (data : NArray) (C mP mN : Nat)
    (hreal : isrealAll data.data = true)
    (hndim : data.shape.length = w.dim + 1)
    (hC : data.shape.getD w.dim 1 = C)
    (hC1 : C ≠ 1)
    (hlenTo : ∀ l, (w.toPencilOp l).length = mP)
    (hlenFrom : ∀ l, (w.fromPencilOp l).length = mN) :
    (∃ B, w.transposeToPencil data = .ok B ∧
      B.data = (List.range C).flatMap
          (fun ic => w.toPencilOp (reshapeTo3d w.dim data (some ic)).data) ∧
      ∀ c, c < C →
        (B.data.drop (c * mP)).take mP
          = w.toPencilOp (reshapeTo3d w.dim data (some c)).data) ∧
    (∃ B, w.transposeFromPencil data = .ok B ∧
      B.data = (List.range C).flatMap
          (fun ic => w.fromPencilOp (reshapeTo3d w.dim data (some ic)).data) ∧
      ∀ c, c < C →
        (B.data.drop (c * mN)).take mN
          = w.fromPencilOp (reshapeTo3d w.dim data (some c)).data) := by
  have hnc : numComponentsOf w.dim data = C := by
    unfold numComponentsOf
    rw [if_pos hndim, hC]
  constructor
  · refine ⟨reshapeFrom3d w.dim
      ⟨w.pencil_size.toList ++ [C],
       (List.range C).flatMap
         (fun ic => w.toPencilOp (reshapeTo3d w.dim data (some ic)).data)⟩, ?_, ?_, ?_⟩
    · unfold TransposeWrapper.transposeToPencil
      simp only [hreal, not_true_eq_false, if_false, hnc, hC1, if_false]
    · simp [reshapeFrom3d]
    · intro c hc
      rw [reshapeFrom3d]
      exact flatMap_range_extract _ mP C c hc (fun i _ => hlenTo _)
  · refine ⟨reshapeFrom3d w.dim
      ⟨w.size3d.toList ++ [C],
       (List.range C).flatMap
         (fun ic => w.fromPencilOp (reshapeTo3d w.dim data (some ic)).data)⟩, ?_, ?_, ?_⟩
    · unfold TransposeWrapper.transposeFromPencil
      simp only [hreal, not_true_eq_false, if_false, hnc, hC1, if_false]
    · simp [reshapeFrom3d]
    · intro c hc
      rw [reshapeFrom3d]
      exact flatMap_range_extract _ mN C c hc (fun i _ => hlenFrom _)

theorem C7_component_loop_order_witness :
    ∃ B, exW2.transposeToPencil exA2 = .ok B ∧
      B.data = (List.range 2).flatMap
          (fun ic => exW2.toPencilOp (reshapeTo3d exW2.dim exA2 (some ic)).data) ∧
      ∀ c, c < 2 →
        (B.data.drop (c * 8)).take 8
          = exW2.toPencilOp (reshapeTo3d exW2.dim exA2 (some c)).data :=
  (C7_component_loop_order exW2 exA2 2 8 8 (by decide) (by decide) (by decide)
    (by decide) (fun l => pad8_length l) (fun l => pad8_length l)).1

/-- Round trip along the single-component path: when the component count is 1
and the data's flat length matches the natural block, a mutually inverse pair
of transpose primitives returns the original elements. -/
lemma single_round_trip (w : TransposeWrapper) (data : NArray)
    (hdim : w.dim ≤ 3)
    (hreal : isrealAll data.data = true)
    (hnc : numComponentsOf w.dim data = 1)
    (hn : (pad3 (data.shape.take w.dim)).prod = ((w.size3d.toList).take w.dim).prod)
    (hlen : data.data.length = ((w.size3d.toList).take w.dim).prod)
    (hlenTo : ∀ l, (w.toPencilOp l).length = ((w.pencil_size.toList).take w.dim).prod)
    (hrealTo : ∀ l, isrealAll l = true → isrealAll (w.toPencilOp l) = true)
    (hinv : ∀ l, l.length = ((w.size3d.toList).take w.dim).prod →
        w.fromPencilOp (w.toPencilOp l) = l) :
    ∃ B res, w.transposeToPencil data = .ok B ∧
      w.transposeFromPencil B = .ok res ∧ res.data = data.data := by
  have hPlen : (w.pencil_size.toList).length = 3 := rfl
  have hdata3 : (reshapeTo3d w.dim data none).data = data.data := by
    simp only [reshapeTo3d]
    rw [hn, ← hlen, List.take_length]
  have hto : w.transposeToPencil data
      = .ok (reshapeFrom3d w.dim
          ⟨w.pencil_size.toList, w.toPencilOp (reshapeTo3d w.dim data none).data⟩) := by
    unfold TransposeWrapper.transposeToPencil
    simp only [hreal, not_true_eq_false, if_false, hnc, if_true]
  set B := reshapeFrom3d w.dim
      ⟨w.pencil_size.toList, w.toPencilOp (reshapeTo3d w.dim data none).data⟩ with hBdef
  have hBshape : B.shape = (w.pencil_size.toList).take w.dim := by
    simp only [hBdef, reshapeFrom3d]
    rw [show (w.pencil_size.toList).drop 3 = [] from rfl, List.append_nil]
  have hBdata : B.data = w.toPencilOp data.data := by
    simp only [hBdef, reshapeFrom3d]
    rw [hdata3]
  have hBlen : B.shape.length = w.dim := by
    rw [hBshape, List.length_take, hPlen]
    omega
  have hBreal : isrealAll B.data = true := by
    rw [hBdata]
    exact hrealTo _ hreal
  have hnc2 : numComponentsOf w.dim B = 1 := by
    unfold numComponentsOf
    rw [if_neg (show ¬ B.shape.length = w.dim + 1 by rw [hBlen]; omega)]
  have hB3 : (reshapeTo3d w.dim B none).data = B.data := by
    simp only [reshapeTo3d]
    rw [hBshape, List.take_take, Nat.min_self, pad3_prod]
    exact List.take_of_length_le (by rw [hBdata, hlenTo])
  have hfrom : w.transposeFromPencil B
      = .ok (reshapeFrom3d w.dim
          ⟨w.size3d.toList, w.fromPencilOp (reshapeTo3d w.dim B none).data⟩) := by
    unfold TransposeWrapper.transposeFromPencil
    simp only [hBreal, not_true_eq_false, if_false, hnc2, if_true]
  refine ⟨B, _, hto, hfrom, ?_⟩
  show (reshapeFrom3d w.dim
      ⟨w.size3d.toList, w.fromPencilOp (reshapeTo3d w.dim B none).data⟩).data = data.data
  simp only [reshapeFrom3d]
  rw [hB3, hBdata]
  exact hinv data.data hlen

/-- Round trip along the per-component path: on a `C`-component input
(`C ≠ 1`) with block-sized components, mutually inverse block-sized transpose
primitives return the original elements component by component. -/
lemma multi_round_trip (w : TransposeWrapper) (data : NArray) (C : Nat)
    (hdim : w.dim ≤ 3)
    (hreal : isrealAll data.data = true)
    (hsh : data.shape = (w.size3d.toList).take w.dim ++ [C])
    (hC1 : C ≠ 1)
    (hlen : data.data.length = C * ((w.size3d.toList).take w.dim).prod)
    (hlenTo : ∀ l, (w.toPencilOp l).length = ((w.pencil_size.toList).take w.dim).prod)
    (hrealTo : ∀ l, isrealAll l = true → isrealAll (w.toPencilOp l) = true)
    (hinv : ∀ l, l.length = ((w.size3d.toList).take w.dim).prod →
        w.fromPencilOp (w.toPencilOp l) = l) :
    ∃ B res, w.transposeToPencil data = .ok B ∧
      w.transposeFromPencil B = .ok res ∧ res.data = data.data := by
  have hNlen3 : (w.size3d.toList).length = 3 := rfl
  have hPlen3 : (w.pencil_size.toList).length = 3 := rfl
  have hsN : ((w.size3d.toList).take w.dim).length = w.dim := by
    rw [List.length_take, hNlen3]
    omega
  have hsP : ((w.pencil_size.toList).take w.dim).length = w.dim := by
    rw [List.length_take, hPlen3]
    omega
  have hshlen : data.shape.length = w.dim + 1 := by
    rw [hsh, List.length_append, hsN]
    rfl
  have hnc : numComponentsOf w.dim data = C := by
    unfold numComponentsOf
    rw [if_pos hshlen, hsh, List.getD_append_right _ _ _ _ hsN.le, hsN, Nat.sub_self]
    rfl
  have htake : data.shape.take w.dim = (w.size3d.toList).take w.dim := by
    rw [hsh, List.take_append_of_le_length hsN.ge, List.take_of_length_le hsN.le]
  have hslice : ∀ ic : Nat, (reshapeTo3d w.dim data (some ic)).data
      = (data.data.drop (ic * ((w.size3d.toList).take w.dim).prod)).take
          ((w.size3d.toList).take w.dim).prod := by
    intro ic
    simp only [reshapeTo3d]
    rw [htake, pad3_prod]
  have hto : w.transposeToPencil data
      = .ok (reshapeFrom3d w.dim
          ⟨w.pencil_size.toList ++ [C],
           (List.range C).flatMap
             (fun ic => w.toPencilOp (reshapeTo3d w.dim data (some ic)).data)⟩) := by
    unfold TransposeWrapper.transposeToPencil
    simp only [hreal, not_true_eq_false, if_false, hnc, hC1, if_false]
  set Bdata := (List.range C).flatMap
      (fun ic => w.toPencilOp (reshapeTo3d w.dim data (some ic)).data) with hBdata_def
  set B := reshapeFrom3d w.dim ⟨w.pencil_size.toList ++ [C], Bdata⟩ with hBdef
  have hBshape : B.shape = (w.pencil_size.toList).take w.dim ++ [C] := by
    simp only [hBdef, reshapeFrom3d]
    rw [List.take_append_of_le_length (by rw [hPlen3]; exact hdim),
        show (3 : Nat) = (w.pencil_size.toList).length from hPlen3.symm, List.drop_left]
  have hBd : B.data = Bdata := by
    simp [hBdef, reshapeFrom3d]
  have hBreal : isrealAll B.data = true := by
    rw [hBd, hBdata_def]
    exact isrealAll_flatMap _ C
      (fun i _ => hrealTo _ (by rw [hslice i]; exact isrealAll_infix data.data _ _ hreal))
  have hBshlen : B.shape.length = w.dim + 1 := by
    rw [hBshape, List.length_append, hsP]
    rfl
  have hnc2 : numComponentsOf w.dim B = C := by
    unfold numComponentsOf
    rw [if_pos hBshlen, hBshape, List.getD_append_right _ _ _ _ hsP.le, hsP, Nat.sub_self]
    rfl
  have hBtake : B.shape.take w.dim = (w.pencil_size.toList).take w.dim := by
    rw [hBshape, List.take_append_of_le_length hsP.ge, List.take_of_length_le hsP.le]
  have hsliceB : ∀ ic : Nat, (reshapeTo3d w.dim B (some ic)).data
      = (B.data.drop (ic * ((w.pencil_size.toList).take w.dim).prod)).take
          ((w.pencil_size.toList).take w.dim).prod := by
    intro ic
    simp only [reshapeTo3d]
    rw [hBtake, pad3_prod]
  have hfrom : w.transposeFromPencil B
      = .ok (reshapeFrom3d w.dim
          ⟨w.size3d.toList ++ [C],
           (List.range C).flatMap
             (fun ic => w.fromPencilOp (reshapeTo3d w.dim B (some ic)).data)⟩) := by
    unfold TransposeWrapper.transposeFromPencil
    simp only [hBreal, not_true_eq_false, if_false, hnc2, hC1, if_false]
  refine ⟨B, _, hto, hfrom, ?_⟩
  show (reshapeFrom3d w.dim
      ⟨w.size3d.toList ++ [C],
       (List.range C).flatMap
         (fun ic => w.fromPencilOp (reshapeTo3d w.dim B (some ic)).data)⟩).data
    = data.data
  simp only [reshapeFrom3d]
  have hstep : ∀ i, i < C → w.fromPencilOp ((reshapeTo3d w.dim B (some i)).data)
      = (data.data.drop (i * ((w.size3d.toList).take w.dim).prod)).take
          ((w.size3d.toList).take w.dim).prod := by
    intro i hi
    rw [hsliceB i, hBd, hBdata_def,
        flatMap_range_extract _ _ C i hi (fun j _ => hlenTo _), hslice i]
    exact hinv _ (chunk_length data.data _ C i hlen hi)
  rw [flatMap_range_congr _ _ C hstep]
  exact flatMap_range_chunks C data.data _ hlen

/-- C1: for every valid natural-layout real array — its leading `dim` axes the
natural block size, with or without a trailing component axis — and a grid
partition whose directional transpose and its inverse are mutually inverse
block-sized redistributions (the redistribution keeps values real), applying
`transposeFromPencil` to the result of `transposeToPencil` returns an array
equal to the input element for element (exact equality of the exact-valued
elements in the fixed Fortran element order). -/
theorem C1_round_trip (w : TransposeWrapper) (data : NArray)
    (hdim : w.dim ≤ 3)
    (hreal : isrealAll data.data = true)
    (hshape : data.shape = (w.size3d.toList).take w.dim ∨
      ∃ C, data.shape = (w.size3d.toList).take w.dim ++ [C])
    (hlen : data.data.length = data.shape.prod)
    (hlenTo : ∀ l, (w.toPencilOp l).length = ((w.pencil_size.toList).take w.dim).prod)
    (hrealTo : ∀ l, isrealAll l = true → isrealAll (w.toPencilOp l) = true)
    (hinv : ∀ l, l.length = ((w.size3d.toList).take w.dim).prod →
        w.fromPencilOp (w.toPencilOp l) = l) :
    ∃ B res, w.transposeToPencil data = .ok B ∧
      w.transposeFromPencil B = .ok res ∧ res.data = data.data := by
  have hNlen3 : (w.size3d.toList).length = 3 := rfl
  have hsN : ((w.size3d.toList).take w.dim).length = w.dim := by
    rw [List.length_take, hNlen3]
    omega
  rcases hshape with hsh | ⟨C, hsh⟩
  · apply single_round_trip w data hdim hreal
    · unfold numComponentsOf
      rw [if_neg (by rw [hsh, hsN]; omega)]
    · rw [hsh, List.take_of_length_le hsN.le, pad3_prod]
    · rw [hlen, hsh]
    · exact hlenTo
    · exact hrealTo
    · exact hinv
  · by_cases hC : C = 1
    · subst hC
      apply single_round_trip w data hdim hreal
      · unfold numComponentsOf
        rw [if_pos (by rw [hsh, List.length_append, hsN]; rfl), hsh,
            List.getD_append_right _ _ _ _ hsN.le, hsN, Nat.sub_self]
        rfl
      · rw [hsh, List.take_append_of_le_length hsN.ge,
            List.take_of_length_le hsN.le, pad3_prod]
      · rw [hlen, hsh, List.prod_append]
        simp
      · exact hlenTo
      · exact hrealTo
      · exact hinv
    · exact multi_round_trip w data C hdim hreal hsh hC
        (by rw [hlen, hsh, List.prod_append]; simp [Nat.mul_comm])
        hlenTo hrealTo hinv

theorem C1_round_trip_witness :
    ∃ B res, exW2.transposeToPencil exA = .ok B ∧
      exW2.transposeFromPencil B = .ok res ∧ res.data = exA.data :=
  C1_round_trip exW2 exA (by decide) (by decide) (Or.inl rfl) (by decide)
    (fun l => pad8_length l) (fun l h => pad8_real l h)
    (fun l hl => by
      show pad8 (pad8 l) = l
      rw [pad8_eq l hl, pad8_eq l hl])
